import Mathlib

/-!
Shallow embedding of the aggregation logic of `src/app.py`, an interactive
COVID-19 dashboard script.  Rows of the loaded dataframe are modelled as a
structure holding the columns selected at line 12 of the script, and the
dataframe operations the script performs (boolean-mask filtering,
`groupby(...).sum()`, `groupby(...).diff().fillna(0)`, `sort_values`,
`head`, column assignment) are modelled as list transformations.  Dates are
integers (timezone-naive timestamps are totally ordered and equality-spaced
structure is never used), metric values are integers.
-/

/-- One record of the dataframe after the column selection at line 12 of
`src/app.py` (`date`, `Country/Region`, `Province/State`, `cases`,
`deaths`, `recovered`; the also-selected `Combined_Key` is never read
afterwards and is dropped from the model). -/
structure Row where
  date : Int
  entity : String
  province : String
  cases : Int
  deaths : Int
  recovered : Int
deriving DecidableEq, Repr

/-- The three cumulative metric columns of the dataset. -/
inductive Metric
  | cases
  | deaths
  | recovered
deriving DecidableEq, Repr

/-- Column access for a metric. -/
def metricVal : Metric → Row → Int
  | .cases, r => r.cases
  | .deaths, r => r.deaths
  | .recovered, r => r.recovered

/-- Column name of a metric, as selected by the sidebar widgets. -/
def metricName : Metric → String
  | .cases => "cases"
  | .deaths => "deaths"
  | .recovered => "recovered"

/-- A dataframe is an ordered sequence of rows (its implicit integer index
is positional). -/
abbrev Table := List Row

/-- Code-point lexicographic strict comparison of character lists; this is
the order `pandas` sorts string group keys by (Python string comparison). -/
def strLtB : List Char → List Char → Bool
  | [], [] => false
  | [], _ :: _ => true
  | _ :: _, [] => false
  | a :: as, b :: bs =>
    if a.toNat < b.toNat then true
    else if b.toNat < a.toNat then false
    else strLtB as bs

/-- Non-strict code-point order on strings. -/
def entLe (a b : String) : Prop :=
  a = b ∨ strLtB a.data b.data = true

instance : DecidableRel entLe := fun _ _ =>
  inferInstanceAs (Decidable (_ ∨ _))

/-- Date filtering by boolean mask, lines 41-42 of `src/app.py`:
`global_df[(global_df["date"] >= start) & (global_df["date"] <= end)]`. -/
def filterByDateRange (t : Table) (s e : Int) : Table :=
  t.filter (fun r => s ≤ r.date && r.date ≤ e)

/-- One step of `Series.diff()`: each element minus its predecessor. -/
def diffAux : Int → List Int → List Int
  | _, [] => []
  | prev, x :: xs => (x - prev) :: diffAux x xs

/-- The effect of `Series.diff().fillna(0)` (as at lines 231-234 of
`src/app.py`) on the ordered sequence of values of a series: first
differences, with the leading missing value replaced by `0`. -/
def diffSeries : List Int → List Int
  | [] => []
  | x :: xs => 0 :: diffAux x xs

/-- The distinct dates of a table in ascending order: the group keys
produced by `groupby("date")` (pandas sorts group keys). -/
def datesOf (t : Table) : List Int :=
  ((t.map Row.date).dedup).insertionSort (· ≤ ·)

/-- Grouping by date and summing one metric over all rows of each date:
`df.groupby("date")[metric].sum().reset_index()` (lines 45 and 152 of
`src/app.py`). -/
def sumByDate (t : Table) (m : Metric) : List (Int × Int) :=
  (datesOf t).map fun d =>
    (d, ((t.filter (fun r => r.date == d)).map (metricVal m)).sum)

/-- The distinct entities of a table in ascending code-point order: the
group keys produced by `groupby("Country/Region")`. -/
def entitiesOf (t : Table) : List String :=
  ((t.map Row.entity).dedup).insertionSort entLe

/-- Grouping by entity and summing the three metrics over all rows of each
entity: `country_df.groupby("Country/Region")[["cases", "deaths",
"recovered"]].sum().reset_index()` (line 79 of `src/app.py`). -/
def sumByEntity (t : Table) : List (String × (Int × Int × Int)) :=
  (entitiesOf t).map fun en =>
    let g := t.filter (fun r => r.entity == en)
    (en, ((g.map Row.cases).sum, (g.map Row.deaths).sum, (g.map Row.recovered).sum))

/-- Sample row used by concrete witnesses: Argentina at day 0. -/
def rArg : Row :=
  { date := 0, entity := "Argentina", province := "", cases := 50, deaths := 5, recovered := 20 }

/-- Sample row used by concrete witnesses: Brazil at day 0. -/
def rBra : Row :=
  { date := 0, entity := "Brazil", province := "", cases := 80, deaths := 8, recovered := 40 }

/-- Sample row used by concrete witnesses: Chile at day 0. -/
def rChi : Row :=
  { date := 0, entity := "Chile", province := "", cases := 80, deaths := 7, recovered := 30 }

/-- Lexicographic (entity, date) order on index-carrying rows: the sort key
of `sort_values(by=["Country/Region", "date"])` at lines 148 and 182 of
`src/app.py` (a stable multi-key sort, `np.lexsort`). -/
def rowKeyLe (a b : Nat × Row) : Prop :=
  strLtB a.2.entity.data b.2.entity.data = true
  ∨ (a.2.entity = b.2.entity ∧ a.2.date ≤ b.2.date)

instance : DecidableRel rowKeyLe := fun _ _ =>
  inferInstanceAs (Decidable (_ ∨ _))

/-- The sorted copy `global_df_sorted` of the frame (line 148 of
`src/app.py`), each row paired with its original positional index, sorted
stably by (entity, date). -/
def sortedRows (t : Table) : List (Nat × Row) :=
  (t.enum).insertionSort rowKeyLe

/-- One group of `global_df_sorted.groupby("Country/Region")`: the
subsequence of the sorted frame belonging to one entity, rows still tagged
with their original dataframe index. -/
def entityGroup (t : Table) (en : String) : List (Nat × Row) :=
  (sortedRows t).filter fun p => p.2.entity == en

/-- Per-entity first differences of the sorted frame, tagged with original
row indices: `global_df_sorted.groupby("Country/Region")[metric].diff().fillna(0)`
(lines 149 and 185 of `src/app.py`).  Each entity group's value series is
differenced with the group's first difference filled by `0`, and every
difference keeps the dataframe index of its row. -/
def groupDeltaPairs (t : Table) (m : Metric) : List (Nat × Int) :=
  (entitiesOf t).flatMap fun en =>
    ((entityGroup t en).map Prod.fst).zip
      (diffSeries ((entityGroup t en).map fun p => metricVal m p.2))

/-- Index-aligned assignment of the differenced series back to the frame:
`global_df["daily_" + metric] = ...` aligns on the dataframe index, so
position `i` of the derived column carries the delta computed for row `i`
wherever that row ended up in the sorted order. -/
def dailyDeltas (t : Table) (m : Metric) : List Int :=
  (List.range t.length).map fun i => ((groupDeltaPairs t m).lookup i).getD 0

/-- The table with its derived `daily_<metric>` column: rows in their
original order, each paired with its per-entity delta. -/
def dailyDelta (t : Table) (m : Metric) : List (Row × Int) :=
  t.zip (dailyDeltas t m)

/-- The dashboard's shared dataframe `global_df`: its base columns (the
`Row` fields, which no statement of the script ever reassigns) together
with the derived integer columns added to it by column assignment, as an
ordered association list from column name to column values. -/
structure Frame where
  base : Table
  extra : List (String × List Int)
deriving DecidableEq, Repr

/-- Pandas column assignment `df[name] = series`: if a column of that name
exists it is overwritten in place, otherwise a new column is appended. -/
def setCol (cols : List (String × List Int)) (n : String) (v : List Int) :
    List (String × List Int) :=
  if n ∈ cols.map Prod.fst then
    cols.map fun c => if c.1 = n then (n, v) else c
  else cols ++ [(n, v)]

/-- Lines 148-149 of `src/app.py` (and, identically, lines 182-185):
compute the per-entity daily differences of a metric from the base columns
and assign them to the derived column `"daily_" + metric` of the frame. -/
def applyDailyDelta (f : Frame) (m : Metric) : Frame :=
  { f with extra := setCol f.extra ("daily_" ++ metricName m) (dailyDeltas f.base m) }

/-- Line 228 of `src/app.py`: the two-column slice
`global_df[global_df["Country/Region"] == country][["date", metric]]` as a
list of (date, value) pairs.  Column selection returns a new dataframe (a
copy), so the slice is its own object, detached from `global_df`. -/
def countrySlice (f : Frame) (c : String) (m : Metric) : List (Int × Int) :=
  (f.base.filter fun r => r.entity == c).map fun r => (r.date, metricVal m r)

/-- Line 231 of `src/app.py`:
`country_data = country_data.sort_values(by="date")` — `sort_values`
returns a new frame sorted stably by date (default `inplace=False`), which
is rebound to the local name. -/
def countrySorted (f : Frame) (c : String) (m : Metric) : List (Int × Int) :=
  (countrySlice f c m).insertionSort fun a b => a.1 ≤ b.1

/-- Lines 228-234 of `src/app.py` as a transformer of the global state:
the local `country_data` is built (slice at line 228, sort at line 231,
then line 234 adds the `new_<metric>` column to the frame returned by
`sort_values`) and the global frame is passed through untouched — no
statement of the section assigns to `global_df` or to any of its columns,
and line 234 mutates the fresh local object only. -/
def countrySection (f : Frame) (c : String) (m : Metric) :
    Frame × List ((Int × Int) × Int) :=
  (f, (countrySorted f c m).zip (diffSeries ((countrySorted f c m).map Prod.snd)))

/-- Per-entity sums of one metric over the rows of one exact date:
`latest_df = global_df[global_df["date"] == latest_date]` followed by
`latest_df.groupby("Country/Region")[metric].sum().reset_index()` (lines
117-120 of `src/app.py`); group keys appear in ascending order. -/
def topNAgg (t : Table) (d : Int) (m : Metric) : List (String × Int) :=
  (entitiesOf (t.filter fun r => r.date == d)).map fun en =>
    (en, (((t.filter fun r => r.date == d).filter fun r => r.entity == en).map
        (metricVal m)).sum)

/-- The value order used by `sort_values(by=metric)` on the aggregated
(entity, value) frame. -/
def valLe (a b : String × Int) : Prop :=
  a.2 ≤ b.2

instance : DecidableRel valLe := fun _ _ =>
  inferInstanceAs (Decidable (_ ≤ _))

/-- Line 121 of `src/app.py`:
`top_n_countries.sort_values(by=metric, ascending=False).head(n)`.  For a
descending sort pandas argsorts ascending and reverses the resulting
permutation (`nargsort`); on frames as small as the aggregations modelled
here numpy's default quicksort runs only its insertion-sort phase, which is
stable.  The model is therefore a stable ascending sort by value followed
by reversal, then `head(n)`. -/
def topN (t : Table) (d : Int) (m : Metric) (n : Nat) : List (String × Int) :=
  (((topNAgg t d m).insertionSort valLe).reverse).take n

/-- One top-level statement of `src/app.py`, abstracted to the source line
it starts at, the global names it reads and the global names it binds. -/
structure Stmt where
  line : Nat
  refs : List String
  binds : List String

/-- The statement prologue of `src/app.py` through its first aggregations:
lines 1-4 are imports binding `st`, `cod`, `pd` and `px` (no import binds
`os`); line 6 reads `os`; line 9 loads the dataset through `cod`; lines 12
and 15 rebuild `global_df`; lines 18-38 are widget statements; line 41 is
the date filter and line 45 the first group-and-sum. -/
def script : List Stmt :=
  [ { line := 1, refs := [], binds := ["st"] },
    { line := 2, refs := [], binds := ["cod"] },
    { line := 3, refs := [], binds := ["pd"] },
    { line := 4, refs := [], binds := ["px"] },
    { line := 6, refs := ["os"], binds := [] },
    { line := 9, refs := ["cod"], binds := ["global_df"] },
    { line := 12, refs := ["global_df"], binds := ["global_df"] },
    { line := 15, refs := ["pd", "global_df"], binds := ["global_df"] },
    { line := 18, refs := ["st"], binds := [] },
    { line := 21, refs := ["st"], binds := [] },
    { line := 27, refs := ["st"], binds := [] },
    { line := 30, refs := ["st", "global_df"], binds := ["start_date"] },
    { line := 31, refs := ["st", "global_df"], binds := ["end_date"] },
    { line := 34, refs := ["start_date", "end_date", "st"], binds := [] },
    { line := 38, refs := ["st"], binds := ["case_type"] },
    { line := 41, refs := ["global_df", "pd", "start_date", "end_date"],
      binds := ["filtered_df"] },
    { line := 45, refs := ["filtered_df", "case_type"], binds := ["df_grouped"] } ]

/-- Python global-name resolution over a straight-line statement list:
statements execute in order, and the first statement that reads a name no
earlier statement has bound raises `NameError` there, aborting the run.
Returns the start lines of the statements that executed and, when a name
error occurred, its line and the unbound name. -/
def runStmts (env : List String) : List Stmt → List Nat × Option (Nat × String)
  | [] => ([], none)
  | s :: rest =>
    match s.refs.find? (fun n => !env.contains n) with
    | some n => ([], some (s.line, n))
    | none =>
      let res := runStmts (env ++ s.binds) rest
      (s.line :: res.1, res.2)

/-- Sample frame used by concrete witnesses: three rows, no derived
columns yet. -/
def fr0 : Frame :=
  { base := [rBra, rChi, rArg], extra := [] }

lemma strLtB_irrefl : ∀ as : List Char, strLtB as as = false := by
  intro as
  induction as with
  | nil => rfl
  | cons a tl ih => simp [strLtB, ih]

lemma strLtB_asymm : ∀ as bs : List Char,
    strLtB as bs = true → strLtB bs as = false := by
  intro as
  induction as with
  | nil => intro bs h; cases bs <;> simp_all [strLtB]
  | cons a tl ih =>
    intro bs h
    cases bs with
    | nil => simp [strLtB] at h
    | cons b bs' =>
      by_cases h1 : a.toNat < b.toNat
      · simp [strLtB, h1, Nat.lt_asymm h1]
      · by_cases h2 : b.toNat < a.toNat
        · simp [strLtB, h1, h2] at h
        · simp only [strLtB, if_neg h1, if_neg h2] at h
          simp only [strLtB, if_neg h1, if_neg h2]
          exact ih bs' h

lemma strLtB_total : ∀ as bs : List Char,
    strLtB as bs = false → strLtB bs as = false → as = bs := by
  intro as
  induction as with
  | nil => intro bs h _; cases bs <;> simp_all [strLtB]
  | cons a tl ih =>
    intro bs h1 h2
    cases bs with
    | nil => simp [strLtB] at h2
    | cons b bs' =>
      by_cases g1 : a.toNat < b.toNat
      · simp [strLtB, g1] at h1
      · by_cases g2 : b.toNat < a.toNat
        · simp [strLtB, g2] at h2
        · simp only [strLtB, if_neg g1, if_neg g2] at h1 h2
          have hn : a.toNat = b.toNat := by omega
          simp only [Char.toNat] at hn
          have hab : a = b := Char.ext (UInt32.toNat.inj hn)
          rw [hab, ih bs' h1 h2]

lemma strLtB_trans : ∀ as bs cs : List Char,
    strLtB as bs = true → strLtB bs cs = true → strLtB as cs = true := by
  intro as
  induction as with
  | nil =>
    intro bs cs h1 h2
    cases bs with
    | nil => simp [strLtB] at h1
    | cons b bs' => cases cs <;> simp_all [strLtB]
  | cons a tl ih =>
    intro bs cs h1 h2
    cases bs with
    | nil => simp [strLtB] at h1
    | cons b bs' =>
      cases cs with
      | nil => simp [strLtB] at h2
      | cons c cs' =>
        by_cases g1 : a.toNat < b.toNat
        · by_cases g2 : b.toNat < c.toNat
          · simp [strLtB, Nat.lt_trans g1 g2]
          · by_cases g3 : c.toNat < b.toNat
            · simp [strLtB, g2, g3] at h2
            · have : a.toNat < c.toNat := by omega
              simp [strLtB, this]
        · by_cases g2 : b.toNat < a.toNat
          · simp [strLtB, g1, g2] at h1
          · by_cases g3 : b.toNat < c.toNat
            · have : a.toNat < c.toNat := by omega
              simp [strLtB, this]
            · by_cases g4 : c.toNat < b.toNat
              · simp [strLtB, g3, g4] at h2
              · have n1 : ¬ a.toNat < c.toNat := by omega
                have n2 : ¬ c.toNat < a.toNat := by omega
                simp only [strLtB, if_neg g1, if_neg g2] at h1
                simp only [strLtB, if_neg g3, if_neg g4] at h2
                simp only [strLtB, if_neg n1, if_neg n2]
                exact ih bs' cs' h1 h2

instance : IsTotal String entLe := by
  constructor
  intro a b
  by_cases hab : a = b
  · exact Or.inl (Or.inl hab)
  · rcases h1 : strLtB a.data b.data with _ | _
    · rcases h2 : strLtB b.data a.data with _ | _
      · refine absurd ?_ hab
        have h3 := strLtB_total a.data b.data h1 h2
        cases a
        cases b
        exact congrArg String.mk h3
      · exact Or.inr (Or.inr h2)
    · exact Or.inl (Or.inr h1)

instance : IsTrans String entLe := by
  constructor
  intro a b c hab hbc
  rcases hab with rfl | hab
  · exact hbc
  · rcases hbc with rfl | hbc
    · exact Or.inr hab
    · exact Or.inr (strLtB_trans _ _ _ hab hbc)

lemma strLtB_of_ne (a b : String) (h : a ≠ b) :
    strLtB a.data b.data = true ∨ strLtB b.data a.data = true := by
  by_cases h1 : strLtB a.data b.data = true
  · exact Or.inl h1
  · by_cases h2 : strLtB b.data a.data = true
    · exact Or.inr h2
    · refine absurd ?_ h
      have h3 := strLtB_total a.data b.data
        (Bool.eq_false_iff.mpr h1) (Bool.eq_false_iff.mpr h2)
      cases a
      cases b
      exact congrArg String.mk h3

instance : IsTotal (Nat × Row) rowKeyLe := by
  constructor
  intro a b
  by_cases he : a.2.entity = b.2.entity
  · rcases Int.le_total a.2.date b.2.date with hd | hd
    · exact Or.inl (Or.inr ⟨he, hd⟩)
    · exact Or.inr (Or.inr ⟨he.symm, hd⟩)
  · rcases strLtB_of_ne _ _ he with h | h
    · exact Or.inl (Or.inl h)
    · exact Or.inr (Or.inl h)

instance : IsTrans (Nat × Row) rowKeyLe := by
  constructor
  intro a b c hab hbc
  rcases hab with hab | ⟨hab, hd1⟩
  · rcases hbc with hbc | ⟨hbc, _⟩
    · exact Or.inl (strLtB_trans _ _ _ hab hbc)
    · exact Or.inl (hbc ▸ hab)
  · rcases hbc with hbc | ⟨hbc, hd2⟩
    · exact Or.inl (hab ▸ hbc)
    · exact Or.inr ⟨hab.trans hbc, hd1.trans hd2⟩

instance : IsAntisymm String entLe := by
  constructor
  intro a b hab hba
  rcases hab with rfl | hab
  · rfl
  · rcases hba with rfl | hba
    · rfl
    · have := strLtB_asymm _ _ hab
      rw [this] at hba
      cases hba

lemma diffAux_length (p : Int) (xs : List Int) :
    (diffAux p xs).length = xs.length := by
  induction xs generalizing p with
  | nil => rfl
  | cons y ys ih => simp [diffAux, ih]

lemma diffSeries_length (l : List Int) : (diffSeries l).length = l.length := by
  cases l with
  | nil => rfl
  | cons x xs => simp [diffSeries, diffAux_length]

lemma diffAux_getD (xs : List Int) (p : Int) (i : Nat) (h : i < xs.length) :
    (diffAux p xs).getD i 0 = xs.getD i 0 - (p :: xs).getD i 0 := by
  induction xs generalizing p i with
  | nil => simp at h
  | cons y ys ih =>
    cases i with
    | zero => simp [diffAux]
    | succ j =>
      simp only [diffAux, List.getD_cons_succ]
      exact ih y j (by simpa using h)

/-- C2: `diffSeries` preserves length, its first element is `0`, every later
element is the difference from the predecessor (negative values included,
never clamped), the empty sequence maps to the empty sequence, a singleton
maps to `[0]`, and `[10, 10, 15, 12]` maps to `[0, 0, 5, -3]`. -/
theorem diffSeries_spec (l : List Int) :
    (diffSeries l).length = l.length
    ∧ (l ≠ [] → (diffSeries l).getD 0 0 = 0)
    ∧ (∀ i : Nat, i + 1 < l.length →
        (diffSeries l).getD (i + 1) 0 = l.getD (i + 1) 0 - l.getD i 0)
    ∧ diffSeries ([] : List Int) = []
    ∧ (∀ x : Int, diffSeries [x] = [0])
    ∧ diffSeries [10, 10, 15, 12] = [0, 0, 5, -3] := by
  refine ⟨diffSeries_length l, ?_, ?_, rfl, fun x => rfl, by rfl⟩
  · intro hne
    cases l with
    | nil => exact absurd rfl hne
    | cons x xs => rfl
  · intro i hi
    cases l with
    | nil => simp at hi
    | cons x xs =>
      simp only [diffSeries, List.getD_cons_succ]
      exact diffAux_getD xs x i (by simpa using hi)

/-- Witness for `diffSeries_spec` at the concrete series `[10, 10, 15, 12]`. -/
theorem diffSeries_spec_witness :
    (diffSeries [10, 10, 15, 12]).getD 0 0 = 0
    ∧ (diffSeries [10, 10, 15, 12]).getD (0 + 1) 0
        = ([10, 10, 15, 12] : List Int).getD (0 + 1) 0
          - ([10, 10, 15, 12] : List Int).getD 0 0 := by
  have h := diffSeries_spec [10, 10, 15, 12]
  exact ⟨h.2.1 (by decide), h.2.2.1 0 (by decide)⟩

/-- C4: `filterByDateRange` keeps exactly the rows whose date lies in the
closed interval `[s, e]`, returns a sublist (hence subset) of the input, and
is idempotent for a fixed range. -/
theorem filterByDateRange_spec (t : Table) (s e : Int) :
    (∀ r : Row, r ∈ filterByDateRange t s e ↔ r ∈ t ∧ s ≤ r.date ∧ r.date ≤ e)
    ∧ (filterByDateRange t s e).Sublist t
    ∧ filterByDateRange (filterByDateRange t s e) s e = filterByDateRange t s e := by
  refine ⟨?_, List.filter_sublist t, ?_⟩
  · intro r
    simp [filterByDateRange, List.mem_filter, and_assoc]
  · simp only [filterByDateRange, List.filter_filter]
    congr 1
    funext r
    cases h : (s ≤ r.date && r.date ≤ e) <;> simp [h]

lemma sumByDate_keys (t : Table) (m : Metric) :
    (sumByDate t m).map Prod.fst = datesOf t := by
  simp [sumByDate, List.map_map, Function.comp_def]

/-- C7: `sumByDate` yields exactly one pair per distinct date of the input
(keys are the distinct dates, without duplication), the date of a pair
occurs in the output iff some input row carries it (no zero-filling of
absent dates), and each pair's total is the sum of the metric over all rows
of that date, across all entities. -/
theorem sumByDate_spec (t : Table) (m : Metric) :
    ((sumByDate t m).map Prod.fst).Nodup
    ∧ (∀ d : Int, d ∈ (sumByDate t m).map Prod.fst ↔ ∃ r ∈ t, r.date = d)
    ∧ (∀ p ∈ sumByDate t m,
        p.2 = ((t.filter (fun r => r.date == p.1)).map (metricVal m)).sum) := by
  refine ⟨?_, ?_, ?_⟩
  · rw [sumByDate_keys]
    exact (List.perm_insertionSort _ _).nodup_iff.mpr (List.nodup_dedup _)
  · intro d
    rw [sumByDate_keys]
    simp [datesOf, List.mem_insertionSort, List.mem_dedup]
  · intro p hp
    simp only [sumByDate, List.mem_map] at hp
    obtain ⟨d, _, hpe⟩ := hp
    subst hpe
    rfl

/-- Witness for `sumByDate_spec`: on the three sample rows of day `0` the
single output pair totals the `cases` of all three rows. -/
theorem sumByDate_spec_witness :
    ((0 : Int), (210 : Int)).2
      = (([rBra, rChi, rArg].filter
            (fun r => r.date == ((0 : Int), (210 : Int)).1)).map
          (metricVal Metric.cases)).sum := by
  refine (sumByDate_spec [rBra, rChi, rArg] Metric.cases).2.2 (0, 210) ?_
  decide

/-- C6: grouping-and-summing by date or by entity is invariant under any
permutation of the input rows. -/
theorem sum_perm_invariant (t t' : Table) (m : Metric) (h : t.Perm t') :
    sumByDate t m = sumByDate t' m ∧ sumByEntity t = sumByEntity t' := by
  constructor
  · have hdates : datesOf t = datesOf t' := by
      refine List.eq_of_perm_of_sorted
        ((List.perm_insertionSort _ _).trans
          (((h.map Row.date).dedup).trans (List.perm_insertionSort _ _).symm))
        (List.sorted_insertionSort _ _) (List.sorted_insertionSort _ _)
    unfold sumByDate
    rw [hdates]
    refine List.map_congr_left fun d _ => ?_
    have := ((h.filter (fun r => r.date == d)).map (metricVal m)).sum_eq
    simp [this]
  · have hents : entitiesOf t = entitiesOf t' := by
      refine List.eq_of_perm_of_sorted
        ((List.perm_insertionSort _ _).trans
          (((h.map Row.entity).dedup).trans (List.perm_insertionSort _ _).symm))
        (List.sorted_insertionSort _ _) (List.sorted_insertionSort _ _)
    unfold sumByEntity
    rw [hents]
    refine List.map_congr_left fun en _ => ?_
    have hg := h.filter (fun r => r.entity == en)
    simp only []
    rw [(hg.map Row.cases).sum_eq, (hg.map Row.deaths).sum_eq,
      (hg.map Row.recovered).sum_eq]

/-- Witness for `sum_perm_invariant`: swapping the two rows of a two-row
table changes neither aggregation. -/
theorem sum_perm_invariant_witness :
    sumByDate [rChi, rBra] Metric.cases = sumByDate [rBra, rChi] Metric.cases
    ∧ sumByEntity [rChi, rBra] = sumByEntity [rBra, rChi] :=
  sum_perm_invariant [rChi, rBra] [rBra, rChi] Metric.cases
    (List.Perm.swap rBra rChi [])

lemma entitiesOf_nodup (t : Table) : (entitiesOf t).Nodup :=
  (List.perm_insertionSort _ _).nodup_iff.mpr (List.nodup_dedup _)

lemma mem_entitiesOf {t : Table} {en : String} :
    en ∈ entitiesOf t ↔ ∃ r ∈ t, r.entity = en := by
  simp [entitiesOf, List.mem_insertionSort, List.mem_dedup]

lemma sortedRows_perm (t : Table) : (sortedRows t).Perm t.enum :=
  List.perm_insertionSort _ _

lemma sortedRows_fst_nodup (t : Table) : ((sortedRows t).map Prod.fst).Nodup := by
  refine ((sortedRows_perm t).map Prod.fst).nodup_iff.mpr ?_
  rw [List.enum_map_fst]
  exact List.nodup_range _

lemma entityGroup_sublist (t : Table) (en : String) :
    (entityGroup t en).Sublist (sortedRows t) :=
  List.filter_sublist _

lemma entityGroup_fst_nodup (t : Table) (en : String) :
    ((entityGroup t en).map Prod.fst).Nodup :=
  ((entityGroup_sublist t en).map Prod.fst).nodup (sortedRows_fst_nodup t)

lemma entityGroup_entity {t : Table} {en : String} {p : Nat × Row}
    (hp : p ∈ entityGroup t en) : p.2.entity = en := by
  have := List.of_mem_filter hp
  simpa using this

lemma entityGroup_fst_lt {t : Table} {en : String} {p : Nat × Row}
    (hp : p ∈ entityGroup t en) : p.1 < t.length := by
  have hs : p ∈ sortedRows t := List.mem_of_mem_filter hp
  have : p.1 ∈ (sortedRows t).map Prod.fst := List.mem_map_of_mem _ hs
  have : p.1 ∈ (t.enum).map Prod.fst := ((sortedRows_perm t).map Prod.fst).mem_iff.mp this
  rw [List.enum_map_fst] at this
  exact List.mem_range.mp this

lemma entityGroup_keys_disjoint (t : Table) {en1 en2 : String} (h : en1 ≠ en2) :
    List.Disjoint ((entityGroup t en1).map Prod.fst)
      ((entityGroup t en2).map Prod.fst) := by
  intro k hk1 hk2
  obtain ⟨p, hp, hpk⟩ := List.mem_map.mp hk1
  obtain ⟨q, hq, hqk⟩ := List.mem_map.mp hk2
  have hps : p ∈ sortedRows t := List.mem_of_mem_filter hp
  have hqs : q ∈ sortedRows t := List.mem_of_mem_filter hq
  have hpq : p = q :=
    List.inj_on_of_nodup_map (sortedRows_fst_nodup t) hps hqs (hpk.trans hqk.symm)
  exact h ((entityGroup_entity hp).symm.trans (hpq ▸ entityGroup_entity hq))

lemma group_zip_fst (t : Table) (m : Metric) (en : String) :
    (((entityGroup t en).map Prod.fst).zip
        (diffSeries ((entityGroup t en).map fun p => metricVal m p.2))).map Prod.fst
      = (entityGroup t en).map Prod.fst :=
  List.map_fst_zip _ _ (by simp [diffSeries_length])

lemma groupDeltaPairs_fst_nodup (t : Table) (m : Metric) :
    ((groupDeltaPairs t m).map Prod.fst).Nodup := by
  unfold groupDeltaPairs
  rw [List.map_flatMap]
  simp only [group_zip_fst]
  rw [List.nodup_flatMap]
  refine ⟨fun en _ => entityGroup_fst_nodup t en, ?_⟩
  exact (entitiesOf_nodup t).imp fun hne => entityGroup_keys_disjoint t hne

lemma mem_groupDeltaPairs {t : Table} {m : Metric} {en : String}
    (hen : en ∈ entitiesOf t) {kv : Nat × Int}
    (hkv : kv ∈ ((entityGroup t en).map Prod.fst).zip
        (diffSeries ((entityGroup t en).map fun p => metricVal m p.2))) :
    kv ∈ groupDeltaPairs t m :=
  List.mem_flatMap.mpr ⟨en, hen, hkv⟩

lemma lookup_eq_some_of_mem {l : List (Nat × Int)}
    (hnd : (l.map Prod.fst).Nodup) {k : Nat} {v : Int}
    (hm : (k, v) ∈ l) : l.lookup k = some v := by
  induction l with
  | nil => cases hm
  | cons p tl ih =>
    rw [List.mem_cons] at hm
    rcases hm with heq | hm
    · rw [← heq]
      simp [List.lookup]
    · have hnd' := hnd
      rw [List.map_cons, List.nodup_cons] at hnd'
      have hk : (k == p.1) = false := by
        rw [beq_eq_false_iff_ne]
        intro hkp
        exact hnd'.1 (hkp ▸ List.mem_map_of_mem Prod.fst hm)
      rw [List.lookup, hk]
      exact ih hnd'.2 hm

lemma getD_range_map (f : Nat → Int) (n k : Nat) (h : k < n) :
    ((List.range n).map f).getD k 0 = f k := by
  rw [List.getD_eq_getElem _ _ (by simpa using h)]
  simp

lemma map_lookup_zip (P : List (Nat × Int)) (g : List (Nat × Row)) :
    ∀ vs : List Int, g.length = vs.length →
      (∀ kv ∈ (g.map Prod.fst).zip vs, P.lookup kv.1 = some kv.2) →
      (g.map fun p => (P.lookup p.1).getD 0) = vs := by
  induction g with
  | nil =>
    intro vs hlen _
    cases vs with
    | nil => rfl
    | cons v vs' => simp at hlen
  | cons p g' ih =>
    intro vs hlen hmem
    cases vs with
    | nil => simp at hlen
    | cons v vs' =>
      have h0 : P.lookup p.1 = some v := by
        refine hmem (p.1, v) ?_
        simp
      simp only [List.map_cons, h0, Option.getD_some]
      congr 1
      refine ih vs' (by simpa using hlen) fun kv hkv => hmem kv ?_
      simp only [List.map_cons, List.zip_cons_cons, List.mem_cons]
      exact Or.inr hkv

lemma entityGroup_eq_nil_of_not_mem {t : Table} {en : String}
    (h : en ∉ entitiesOf t) : entityGroup t en = [] := by
  rw [entityGroup, List.filter_eq_nil_iff]
  intro p hp
  simp only [beq_iff_eq]
  intro he
  refine h (mem_entitiesOf.mpr ⟨p.2, ?_, he⟩)
  have : p ∈ t.enum := (sortedRows_perm t).mem_iff.mp hp
  have := List.mem_map_of_mem Prod.snd this
  rwa [List.enum_map_snd] at this

/-- C1: `dailyDelta` preserves the input row order (the rows of the output
table are exactly the input rows in their original positions); internally
the engine sorts a copy of the frame by (entity, date) ascending (a
permutation of the index-tagged rows), each entity's subsequence of that
sorted copy is date-ascending, and reading the derived column at the
original index of each row of an entity's subsequence, in subsequence
order, yields exactly `diffSeries` of the entity's metric values — delta
`0` for the entity's first row and `value[i] - value[i-1]` afterwards. -/
theorem dailyDelta_spec (t : Table) (m : Metric) :
    (dailyDelta t m).map Prod.fst = t
    ∧ (sortedRows t).Perm t.enum
    ∧ (∀ en : String,
        ((entityGroup t en).map fun p => p.2.date).Pairwise (· ≤ ·))
    ∧ (∀ en : String,
        ((entityGroup t en).map fun p => (dailyDeltas t m).getD p.1 0)
          = diffSeries ((entityGroup t en).map fun p => metricVal m p.2)) := by
  refine ⟨?_, sortedRows_perm t, ?_, ?_⟩
  · refine List.map_fst_zip t (dailyDeltas t m) ?_
    simp [dailyDeltas]
  · intro en
    rw [List.pairwise_map]
    have hs : (sortedRows t).Sorted rowKeyLe := List.sorted_insertionSort _ _
    have hf : (entityGroup t en).Sorted rowKeyLe := hs.filter _
    refine hf.imp_of_mem fun {a b} ha hb hab => ?_
    rcases hab with hlt | ⟨_, hd⟩
    · rw [entityGroup_entity ha, entityGroup_entity hb] at hlt
      rw [strLtB_irrefl] at hlt
      cases hlt
    · exact hd
  · intro en
    by_cases hen : en ∈ entitiesOf t
    · have hconv : ((entityGroup t en).map fun p => (dailyDeltas t m).getD p.1 0)
          = (entityGroup t en).map fun p =>
              ((groupDeltaPairs t m).lookup p.1).getD 0 :=
        List.map_congr_left fun p hp => by
          rw [dailyDeltas, getD_range_map _ _ _ (entityGroup_fst_lt hp)]
      rw [hconv]
      refine map_lookup_zip _ _ _ (by rw [diffSeries_length, List.length_map]) ?_
      intro kv hkv
      exact lookup_eq_some_of_mem (groupDeltaPairs_fst_nodup t m)
        (mem_groupDeltaPairs hen hkv)
    · rw [entityGroup_eq_nil_of_not_mem hen]
      rfl

/-- C9: executing `src/app.py` runs the four imports (lines 1-4) and then
stops at line 6 with a `NameError` for the unbound name `os`; in
particular neither the dataset load at line 9 nor any later filtering or
aggregation statement is ever reached, since the run's executed statements
are exactly the statements of lines 1, 2, 3 and 4. -/
theorem script_nameError :
    runStmts [] script = ([1, 2, 3, 4], some (6, "os")) := by
  decide

/-- C10: the country-trend section leaves the shared frame untouched — the
returned global frame is the input frame, with the same base rows and the
same derived-column names — while the local result pairs the date-sorted
two-column slice with its `diffSeries` deltas. -/
theorem countrySection_spec (f : Frame) (c : String) (m : Metric) :
    (countrySection f c m).1 = f
    ∧ (countrySection f c m).1.base = f.base
    ∧ (countrySection f c m).1.extra.map Prod.fst = f.extra.map Prod.fst
    ∧ (countrySection f c m).2.map Prod.fst = countrySorted f c m
    ∧ (countrySection f c m).2.map Prod.snd
        = diffSeries ((countrySorted f c m).map Prod.snd) := by
  refine ⟨rfl, rfl, rfl, ?_, ?_⟩
  · exact List.map_fst_zip _ _ (by rw [diffSeries_length, List.length_map])
  · exact List.map_snd_zip _ _ (by rw [diffSeries_length, List.length_map])

/-- C8: no aggregation operation raises an error.  An inverted date range
(start after end) filters to the empty table; the empty table is a valid
input producing empty output for every operation; and `topN` with `n = 0`
is empty for any input. -/
theorem no_domain_errors (s e : Int) (t : Table) (d : Int) (m : Metric)
    (n : Nat) (h : e < s) :
    filterByDateRange t s e = []
    ∧ sumByDate [] m = []
    ∧ sumByEntity [] = []
    ∧ topN [] d m n = []
    ∧ dailyDelta [] m = []
    ∧ diffSeries [] = []
    ∧ topN t d m 0 = [] := by
  refine ⟨?_, rfl, rfl, ?_, rfl, rfl, rfl⟩
  · rw [filterByDateRange, List.filter_eq_nil_iff]
    intro r _
    simp only [Bool.and_eq_true, decide_eq_true_eq, not_and]
    intro h1 h2
    omega
  · rw [topN, topNAgg]
    simp

/-- Witness for `no_domain_errors` at the inverted range `[5, 3]`. -/
theorem no_domain_errors_witness :
    filterByDateRange [rArg] 5 3 = []
    ∧ sumByDate [] Metric.cases = []
    ∧ sumByEntity [] = []
    ∧ topN [] 0 Metric.cases 2 = []
    ∧ dailyDelta [] Metric.cases = []
    ∧ diffSeries [] = []
    ∧ topN [rArg] 0 Metric.cases 0 = [] :=
  no_domain_errors 5 3 [rArg] 0 Metric.cases 2 (by decide)

lemma setCol_keys_of_mem {cols : List (String × List Int)} {n : String}
    (h : n ∈ cols.map Prod.fst) (v : List Int) :
    (setCol cols n v).map Prod.fst = cols.map Prod.fst := by
  rw [setCol, if_pos h, List.map_map]
  refine List.map_congr_left fun c _ => ?_
  by_cases hcn : c.1 = n
  · simp [Function.comp_def, hcn]
  · simp [Function.comp_def, hcn]

lemma setCol_mem_keys (cols : List (String × List Int)) (n : String)
    (v : List Int) : n ∈ (setCol cols n v).map Prod.fst := by
  by_cases h : n ∈ cols.map Prod.fst
  · rw [setCol_keys_of_mem h]
    exact h
  · rw [setCol, if_neg h, List.map_append]
    simp

lemma setCol_entry {cols : List (String × List Int)} {n : String}
    {v : List Int} : ∀ c ∈ setCol cols n v, c.1 = n → c = (n, v) := by
  intro c hc hcn
  rw [setCol] at hc
  split_ifs at hc with h
  · obtain ⟨c0, _, hrepl⟩ := List.mem_map.mp hc
    by_cases h0 : c0.1 = n
    · rw [if_pos h0] at hrepl
      exact hrepl.symm
    · rw [if_neg h0] at hrepl
      exact absurd (hrepl ▸ hcn) h0
  · rcases List.mem_append.mp hc with hc | hc
    · exact absurd (hcn ▸ List.mem_map_of_mem Prod.fst hc) h
    · simpa using hc

lemma setCol_idem (cols : List (String × List Int)) (n : String)
    (v : List Int) : setCol (setCol cols n v) n v = setCol cols n v := by
  have hmem := setCol_mem_keys cols n v
  rw [setCol, if_pos hmem]
  refine (List.map_congr_left fun c hc => ?_).trans (List.map_id _)
  by_cases hcn : c.1 = n
  · rw [if_pos hcn]
    exact (setCol_entry c hc hcn).symm
  · rw [if_neg hcn]
    rfl

lemma setCol_nodup {cols : List (String × List Int)}
    (h : (cols.map Prod.fst).Nodup) (n : String) (v : List Int) :
    ((setCol cols n v).map Prod.fst).Nodup := by
  by_cases hm : n ∈ cols.map Prod.fst
  · rw [setCol_keys_of_mem hm]
    exact h
  · rw [setCol, if_neg hm, List.map_append]
    simp only [List.nodup_append, List.map_cons, List.map_nil]
    refine ⟨h, List.nodup_singleton n, ?_⟩
    intro a ha hb
    simp only [List.mem_singleton] at hb
    exact hm (hb ▸ ha)

/-- C5: writing the daily-delta column twice with the same metric name
produces the same frame as writing it once (the second assignment
overwrites the first), the derived column `daily_<metric>` is present
after the write, and a frame whose column names are duplicate-free keeps
duplicate-free column names after one and after two writes — the column is
overwritten, never duplicated. -/
theorem applyDailyDelta_idem (f : Frame) (m : Metric) :
    applyDailyDelta (applyDailyDelta f m) m = applyDailyDelta f m
    ∧ ("daily_" ++ metricName m) ∈ (applyDailyDelta f m).extra.map Prod.fst
    ∧ ((f.extra.map Prod.fst).Nodup →
        ((applyDailyDelta f m).extra.map Prod.fst).Nodup
        ∧ ((applyDailyDelta (applyDailyDelta f m) m).extra.map Prod.fst).Nodup) := by
  refine ⟨?_, setCol_mem_keys _ _ _, fun hn => ⟨setCol_nodup hn _ _, setCol_nodup (setCol_nodup hn _ _) _ _⟩⟩
  show Frame.mk f.base
      (setCol (setCol f.extra ("daily_" ++ metricName m) (dailyDeltas f.base m))
        ("daily_" ++ metricName m) (dailyDeltas f.base m))
    = Frame.mk f.base
        (setCol f.extra ("daily_" ++ metricName m) (dailyDeltas f.base m))
  rw [setCol_idem]

/-- Witness for `applyDailyDelta_idem` at the sample frame `fr0`, whose
column names are duplicate-free. -/
theorem applyDailyDelta_idem_witness :
    ((applyDailyDelta fr0 Metric.cases).extra.map Prod.fst).Nodup
    ∧ ((applyDailyDelta (applyDailyDelta fr0 Metric.cases) Metric.cases).extra.map
        Prod.fst).Nodup :=
  (applyDailyDelta_idem fr0 Metric.cases).2.2 (by decide)

lemma pair_sublist_of_mem {α : Type} {l : List α} :
    ∀ {a b : α}, a ∈ l → b ∈ l → a ≠ b → [a, b].Sublist l ∨ [b, a].Sublist l := by
  induction l with
  | nil => intro a b ha _ _; cases ha
  | cons c tl ih =>
    intro a b ha hb hne
    rcases List.mem_cons.mp ha with rfl | ha'
    · rcases List.mem_cons.mp hb with rfl | hb'
      · exact absurd rfl hne
      · exact Or.inl (List.Sublist.cons₂ _ (List.singleton_sublist.mpr hb'))
    · rcases List.mem_cons.mp hb with rfl | hb'
      · exact Or.inr (List.Sublist.cons₂ _ (List.singleton_sublist.mpr ha'))
      · rcases ih ha' hb' hne with h | h
        · exact Or.inl (List.Sublist.cons _ h)
        · exact Or.inr (List.Sublist.cons _ h)

lemma eq_of_pair_sublist_both {α : Type} {l : List α} (hnd : l.Nodup) :
    ∀ {a b : α}, [a, b].Sublist l → [b, a].Sublist l → a = b := by
  induction l with
  | nil => intro a b h1 _; cases h1
  | cons c tl ih =>
    intro a b h1 h2
    rw [List.nodup_cons] at hnd
    cases h1 with
    | cons a1 h1' =>
      cases h2 with
      | cons a2 h2' => exact ih hnd.2 h1' h2'
      | cons₂ a2 h2' => exact absurd (h1'.subset (by simp)) hnd.1
    | cons₂ a1 h1' =>
      cases h2 with
      | cons a2 h2' => exact absurd (h2'.subset (by simp)) hnd.1
      | cons₂ a2 h2' => rfl

instance : IsTotal (String × Int) valLe :=
  ⟨fun a b => Int.le_total a.2 b.2⟩

instance : IsTrans (String × Int) valLe :=
  ⟨fun _ _ _ h1 h2 => le_trans h1 h2⟩

lemma topNAgg_pairwise (t : Table) (d : Int) (m : Metric) :
    (topNAgg t d m).Pairwise fun a b => strLtB a.1.data b.1.data = true := by
  rw [topNAgg, List.pairwise_map]
  have hs : (entitiesOf (t.filter fun r => r.date == d)).Pairwise entLe :=
    List.sorted_insertionSort _ _
  have hn := entitiesOf_nodup (t.filter fun r => r.date == d)
  refine (hs.and hn).imp ?_
  rintro a b ⟨heq | hlt, hne⟩
  · exact absurd heq hne
  · exact hlt

lemma topNAgg_nodup (t : Table) (d : Int) (m : Metric) :
    (topNAgg t d m).Nodup := by
  refine (topNAgg_pairwise t d m).imp ?_
  intro a b hst heq
  rw [heq] at hst
  rw [strLtB_irrefl] at hst
  cases hst

lemma topN_sorted_pairwise (t : Table) (d : Int) (m : Metric) :
    ((topNAgg t d m).insertionSort valLe).Pairwise
      fun a b => a.2 < b.2 ∨ (a.2 = b.2 ∧ strLtB a.1.data b.1.data = true) := by
  rw [List.pairwise_iff_forall_sublist]
  intro a b hab
  have hsorted : ((topNAgg t d m).insertionSort valLe).Sorted valLe :=
    List.sorted_insertionSort _ _
  have hle : a.2 ≤ b.2 := List.pairwise_iff_forall_sublist.mp hsorted hab
  have hnd : ((topNAgg t d m).insertionSort valLe).Nodup :=
    (List.perm_insertionSort _ _).nodup_iff.mpr (topNAgg_nodup t d m)
  rcases lt_or_eq_of_le hle with hlt | heq
  · exact Or.inl hlt
  · refine Or.inr ⟨heq, ?_⟩
    have hne : a ≠ b := by
      intro h
      subst h
      exact (List.pairwise_iff_forall_sublist.mp hnd hab) rfl
    have ha : a ∈ topNAgg t d m :=
      (List.mem_insertionSort valLe).mp (hab.subset (by simp))
    have hb : b ∈ topNAgg t d m :=
      (List.mem_insertionSort valLe).mp (hab.subset (by simp))
    rcases pair_sublist_of_mem ha hb hne with h | h
    · exact List.pairwise_iff_forall_sublist.mp (topNAgg_pairwise t d m) h
    · have hba : [b, a].Sublist ((topNAgg t d m).insertionSort valLe) :=
        List.pair_sublist_insertionSort (le_of_eq heq.symm) h
      exact absurd (eq_of_pair_sublist_both hnd hab hba) hne

/-- C3 (amended): `topN` restricts to the rows whose date equals `d`
exactly (empty output when none does, with no fallback), sums the metric
per entity over those rows, sorts descending by value, and truncates to
`n` entries (`n = 0` gives the empty sequence); tied values appear in
descending entity-name order — the per-entity aggregation orders its group
keys ascending by name, discarding input row order, and the descending
sort reverses a stable ascending sort — not in first-seen input order. -/
theorem topN_spec (t : Table) (d : Int) (m : Metric) (n : Nat) :
    (topN t d m n).length ≤ n
    ∧ topN t d m 0 = []
    ∧ ((t.filter fun r => r.date == d) = [] → topN t d m n = [])
    ∧ (∀ p ∈ topN t d m n,
        p.1 ∈ entitiesOf (t.filter fun r => r.date == d)
        ∧ p.2 = (((t.filter fun r => r.date == d).filter
            fun r => r.entity == p.1).map (metricVal m)).sum)
    ∧ (topN t d m n).Pairwise
        fun a b => b.2 < a.2 ∨ (a.2 = b.2 ∧ strLtB b.1.data a.1.data = true) := by
  refine ⟨?_, rfl, ?_, ?_, ?_⟩
  · rw [topN]
    exact List.length_take_le n _
  · intro h
    rw [topN, topNAgg, h]
    simp [entitiesOf]
  · intro p hp
    have hp1 : p ∈ topNAgg t d m := by
      have h1 : p ∈ ((topNAgg t d m).insertionSort valLe).reverse :=
        List.take_subset _ _ hp
      rw [List.mem_reverse] at h1
      exact (List.mem_insertionSort valLe).mp h1
    rw [topNAgg] at hp1
    obtain ⟨en, hen, hpe⟩ := List.mem_map.mp hp1
    rw [← hpe]
    exact ⟨hen, rfl⟩
  · rw [topN]
    have h1 := List.pairwise_reverse.mpr (topN_sorted_pairwise t d m)
    refine ((h1.imp ?_).sublist (List.take_sublist _ _))
    intro a b hab
    rcases hab with hlt | ⟨heq, hst⟩
    · exact Or.inl hlt
    · exact Or.inr ⟨heq.symm, hst⟩

/-- Witness for `topN_spec`: the tied Chile entry of the concrete
three-row table is an output entry whose value is the per-entity sum at
date `0`, and date `5` (absent from the table) gives the empty output. -/
theorem topN_spec_witness :
    (("Chile", (80 : Int)).1
        ∈ entitiesOf ([rBra, rChi, rArg].filter fun r => r.date == 0)
      ∧ ("Chile", (80 : Int)).2
          = ((([rBra, rChi, rArg].filter fun r => r.date == 0).filter
              fun r => r.entity == ("Chile", (80 : Int)).1).map
            (metricVal Metric.cases)).sum)
    ∧ topN [rBra, rChi, rArg] 5 Metric.cases 3 = [] := by
  constructor
  · exact (topN_spec [rBra, rChi, rArg] 0 Metric.cases 3).2.2.2.1
      ("Chile", 80) (by decide)
  · exact (topN_spec [rBra, rChi, rArg] 5 Metric.cases 3).2.2.1 (by decide)

/-- C3 counterexample: the input rows at date `0` are Brazil (80 cases),
Chile (80 cases), Argentina (50 cases) in that order, so the first-seen
order of the tied pair is Brazil before Chile; the engine nevertheless
returns Chile before Brazil, so the claimed stable first-seen tie-break
does not hold of the code. -/
theorem topN_counterexample :
    [rBra, rChi, rArg].map Row.entity = ["Brazil", "Chile", "Argentina"]
    ∧ topN [rBra, rChi, rArg] 0 Metric.cases 3
        = [("Chile", 80), ("Brazil", 80), ("Argentina", 50)] := by
  constructor
  · rfl
  · decide
